import Mathlib

/-!
Verification of the booking conflict-detection and calendar-grid layout
core of the two-hall scheduling board (src/App.tsx, src/components).

The data model and the operations are shallowly embedded from the
TypeScript source: the conflict check of `handleSaveBooking`
(src/App.tsx lines 108-137), the cell-layout scan of `ScheduleTable`
(src/components, lines 127-161), the export scan of
`handleExportToExcel` (src/App.tsx lines 327-353), and the seed /
load logic (src/App.tsx lines 11-63).
-/

namespace HallApp

/-- The two halls, from `Hall` in types.ts (referenced as `Hall.AlWaha`,
`Hall.AlDana` throughout src/App.tsx). -/
inductive Hall where
  | AlWaha
  | AlDana
deriving DecidableEq, Repr

/-- A booking record, from the `Booking` shape used throughout src/App.tsx. -/
structure Booking where
  id : String
  hallId : Hall
  date : String
  time : String
  endTime : String
  department : String
  notes : String
deriving DecidableEq, Repr

/-- The payload of the booking form, `Omit<Booking, 'id' | 'hallId'>`
(src/App.tsx line 105). -/
structure BookingData where
  date : String
  time : String
  endTime : String
  department : String
  notes : String
deriving DecidableEq, Repr

/-- Lexicographic comparison of character lists by code point; this is
what JavaScript's `<` does on strings (code-unit by code-unit), used by
the conflict check on `HH:MM` labels. -/
def strLtAux : List Char → List Char → Bool
  | [], [] => false
  | [], _ :: _ => true
  | _ :: _, [] => false
  | a :: as, b :: bs =>
      if a.toNat < b.toNat then true
      else if b.toNat < a.toNat then false
      else strLtAux as bs

/-- JavaScript string comparison `a < b` (lexicographic by code unit). -/
def strLt (a b : String) : Bool :=
  strLtAux a.data b.data

/-- The fixed slot grid, src/App.tsx line 221 (`timeSlots`). -/
def timeSlots : List String :=
  ["07:30", "08:00", "09:00", "10:00", "11:00", "12:00",
   "13:00", "14:00", "15:00", "16:00", "17:00", "18:00"]

/-- `timeSlots.slice(0, -1)`: the bookable column labels, with the final
sentinel label removed (src/components ScheduleTable line 71 and
src/App.tsx line 286). -/
def displayTimeSlots : List String :=
  timeSlots.dropLast

/-- The conflict check of `handleSaveBooking` (src/App.tsx lines 108-117):
`bookings.some(b => ...)` — skip the booking being edited, then for a
matching hall and date test `bookingData.time < b.endTime &&
bookingData.endTime > b.time`. -/
def checkConflict (bookings : List Booking) (currentHall : Hall)
    (date time endTime : String) (excludeId : Option String) : Bool :=
  bookings.any fun b =>
    if excludeId = some b.id then false
    else if b.hallId = currentHall ∧ b.date = date then
      strLt time b.endTime && strLt b.time endTime
    else false

/-- The user-facing conflict message thrown by `handleSaveBooking`
(src/App.tsx line 120). -/
def conflictMessage : String :=
  "يوجد تعارض في الحجز. الرجاء اختيار وقت آخر."

/-- `{ ...modalInfo.bookingToEdit, ...bookingData }` (src/App.tsx line
125): the edited booking keeps `id` and `hallId` from the original and
takes every other field from the form payload. -/
def applyEdit (be : Booking) (d : BookingData) : Booking :=
  { be with
    date := d.date, time := d.time, endTime := d.endTime,
    department := d.department, notes := d.notes }

/-- The update branch of `handleSaveBooking` (src/App.tsx line 125):
`bookings.map(b => b.id === bookingToEdit.id ? { ...bookingToEdit,
...bookingData } : b)`. -/
def updateBookings (bookings : List Booking) (be : Booking)
    (d : BookingData) : List Booking :=
  bookings.map fun b => if b.id = be.id then applyEdit be d else b

/-- The create branch of `handleSaveBooking` (src/App.tsx lines 128-133):
`{ ...bookingData, id: newId, hallId: selectedHall }` appended. -/
def newBooking (d : BookingData) (newId : String) (selectedHall : Hall) :
    Booking :=
  { id := newId, hallId := selectedHall,
    date := d.date, time := d.time, endTime := d.endTime,
    department := d.department, notes := d.notes }

/-- `modalInfo.bookingToEdit ? modalInfo.bookingToEdit.hallId :
selectedHall` (src/App.tsx line 106). -/
def currentHallOf (bookingToEdit : Option Booking) (selectedHall : Hall) :
    Hall :=
  match bookingToEdit with
  | some be => be.hallId
  | none => selectedHall

/-- `handleSaveBooking` (src/App.tsx lines 105-137): check the conflict
first; on conflict throw (the error value) before any mutation; otherwise
update or create.  `newId` stands for `new Date().toISOString()`. -/
def handleSaveBooking (bookings : List Booking) (selectedHall : Hall)
    (bookingToEdit : Option Booking) (d : BookingData) (newId : String) :
    Except String (List Booking) :=
  let currentHall := currentHallOf bookingToEdit selectedHall
  if checkConflict bookings currentHall d.date d.time d.endTime
      (bookingToEdit.map Booking.id) then
    Except.error conflictMessage
  else
    match bookingToEdit with
    | some be => Except.ok (updateBookings bookings be d)
    | none => Except.ok (bookings ++ [newBooking d newId selectedHall])

/-- The booking set held by the controller after a save attempt: the
thrown conflict error propagates before `setBookings` runs, so on error
the set is the old one. -/
def applySave (bookings : List Booking) (selectedHall : Hall)
    (bookingToEdit : Option Booking) (d : BookingData) (newId : String) :
    List Booking :=
  match handleSaveBooking bookings selectedHall bookingToEdit d newId with
  | Except.ok bs => bs
  | Except.error _ => bookings

/-- JavaScript `Array.prototype.indexOf` on a string array: index of the
first occurrence, `-1` when absent (used on `timeSlots` at
src/components ScheduleTable line 135 and src/App.tsx lines 332-333). -/
def jsIndexOf : List String → String → Int
  | [], _ => -1
  | y :: l, x =>
      if y = x then 0
      else
        let r := jsIndexOf l x
        if r < 0 then -1 else r + 1

/-- One visual cell of a hall-day row: an empty clickable column, or a
single merged cell representing a booking over `span` consecutive slot
columns. -/
inductive Cell where
  | empty (slotIndex : Nat)
  | occupied (b : Booking) (span : Nat)
deriving DecidableEq, Repr

def isOccupiedCell : Cell → Bool
  | Cell.occupied _ _ => true
  | Cell.empty _ => false

/-- The number of slot columns a cell covers. -/
def cellSpan : Cell → Nat
  | Cell.empty _ => 1
  | Cell.occupied _ s => s

/-- The slot indices covered by a cell sequence laid out left to right
starting at index `i`. -/
def coveredIndices : Nat → List Cell → List Nat
  | _, [] => []
  | i, c :: cs => List.range' i (cellSpan c) ++ coveredIndices (i + cellSpan c) cs

/-- Sum of the spans of a cell sequence. -/
def spanSum (cs : List Cell) : Nat :=
  (cs.map cellSpan).sum

/-- The cell scan of `ScheduleTable` (src/components, lines 127-159):
from column `i` while `i < displayTimeSlots.length`, look up a booking
starting at `timeSlots[i]`; if found and `timeSlots.indexOf(endTime) >
i`, emit one merged cell of that span and jump past it, otherwise emit
an empty clickable cell and advance by one.  Each iteration advances
`i` by at least 1, so `fuel := slots.length` iterations always suffice. -/
def layoutCellsAux (slots : List String) (db : List Booking) :
    Nat → Nat → List Cell
  | _, 0 => []
  | i, fuel + 1 =>
      if i < slots.length - 1 then
        match db.find? (fun b => b.time = slots.getD i "") with
        | some b =>
            let e := jsIndexOf slots b.endTime
            if (i : Int) < e then
              Cell.occupied b (e.toNat - i) :: layoutCellsAux slots db e.toNat fuel
            else
              Cell.empty i :: layoutCellsAux slots db (i + 1) fuel
        | none => Cell.empty i :: layoutCellsAux slots db (i + 1) fuel
      else []

/-- The layout of one hall-day row as rendered on screen. -/
def layoutCells (slots : List String) (db : List Booking) : List Cell :=
  layoutCellsAux slots db 0 slots.length

/-- The cell scan of `handleExportToExcel` (src/App.tsx lines 327-353):
same left-to-right walk, but the span is computed from
`timeSlots.indexOf(booking.time)` and degrades to `1` when the end index
is not strictly larger — the booking is still emitted as an occupied
cell (department pushed, `span - 1` nulls, one merge region when
`span > 1`). -/
def exportCellsAux (slots : List String) (db : List Booking) :
    Nat → Nat → List Cell
  | _, 0 => []
  | i, fuel + 1 =>
      if i < slots.length - 1 then
        match db.find? (fun b => b.time = slots.getD i "") with
        | some b =>
            let s := jsIndexOf slots b.time
            let e := jsIndexOf slots b.endTime
            let span := if s < e then (e - s).toNat else 1
            Cell.occupied b span :: exportCellsAux slots db (i + span) fuel
        | none => Cell.empty i :: exportCellsAux slots db (i + 1) fuel
      else []

/-- The layout of one hall-day row as exported to the spreadsheet. -/
def exportCells (slots : List String) (db : List Booking) : List Cell :=
  exportCellsAux slots db 0 slots.length

/-! Concrete bookings used to instantiate the theorems, following the
end-to-end scenario of the specification (hall H1, date 2025-03-10). -/

def bookingA : Booking :=
  ⟨"A1", Hall.AlWaha, "2025-03-10", "09:00", "11:00", "قسم الموارد البشرية", ""⟩

def bookingC : Booking :=
  ⟨"C1", Hall.AlWaha, "2025-03-10", "11:00", "12:00", "قسم التسويق", ""⟩

def candidateB : BookingData :=
  ⟨"2025-03-10", "10:00", "12:00", "قسم تكنولوجيا المعلومات", ""⟩

def editPayload : BookingData :=
  ⟨"2025-03-10", "13:00", "14:00", "قسم الموارد البشرية", "تعديل"⟩

/-- A malformed booking whose `endTime` label `19:00` is not in the slot
grid (`indexOf` returns `-1`). -/
def malformedBooking : Booking :=
  ⟨"M1", Hall.AlWaha, "2025-03-10", "09:00", "19:00", "قسم الموارد البشرية", ""⟩

/-- A malformed booking whose `endTime` is in the grid but precedes its
`time`. -/
def invertedBooking : Booking :=
  ⟨"M2", Hall.AlWaha, "2025-03-10", "10:00", "08:00", "قسم التسويق", ""⟩

/-- A booking ending exactly at the sentinel label `18:00`. -/
def lastSlotBooking : Booking :=
  ⟨"L1", Hall.AlWaha, "2025-03-10", "17:00", "18:00", "قسم التسويق", ""⟩

/-! The load-time seed, src/App.tsx lines 11-63.  The date helpers of
utils/dateUtils are not part of src/, so the calendar arithmetic is
modelled from the spec here. -/

/-- A calendar date (what `new Date()` supplies to the seed generator). -/
structure CivilDate where
  year : Nat
  month : Nat
  day : Nat
deriving DecidableEq, Repr

def isLeapYear (y : Nat) : Bool :=
  (y % 4 = 0 && y % 100 ≠ 0) || y % 400 = 0

def daysInMonthOf (y m : Nat) : Nat :=
  if m = 2 then (if isLeapYear y then 29 else 28)
  else if m = 4 ∨ m = 6 ∨ m = 9 ∨ m = 11 then 30
  else 31

/-- `d.setDate(d.getDate() + 1)` with JavaScript's month/year rollover. -/
def nextDay (dt : CivilDate) : CivilDate :=
  if dt.day < daysInMonthOf dt.year dt.month then ⟨dt.year, dt.month, dt.day + 1⟩
  else if dt.month < 12 then ⟨dt.year, dt.month + 1, 1⟩
  else ⟨dt.year + 1, 1, 1⟩

def pad2 (n : Nat) : String :=
  if n < 10 then "0" ++ toString n else toString n

/-- Modelled from the spec: `formatToYYYYMMDD` lives in utils/dateUtils,
which is not under src/; the spec fixes its contract — a calendar date
"represented as an unambiguous ISO-like YYYY-MM-DD string". -/
def formatToYYYYMMDD (dt : CivilDate) : String :=
  toString dt.year ++ "-" ++ pad2 dt.month ++ "-" ++ pad2 dt.day

/-- `generateInitialBookings` (src/App.tsx lines 11-47): the seed set,
whose `date` fields are today, tomorrow and the day after, formatted. -/
def generateInitialBookings (today : CivilDate) : List Booking :=
  let tomorrow := nextDay today
  let dayAfter := nextDay (nextDay today)
  [⟨"1", Hall.AlWaha, formatToYYYYMMDD today, "09:00", "11:00",
      "قسم الموارد البشرية", "مقابلات توظيف"⟩,
   ⟨"2", Hall.AlWaha, formatToYYYYMMDD tomorrow, "11:00", "12:00",
      "قسم تكنولوجيا المعلومات", "اجتماع فريق الدعم"⟩,
   ⟨"3", Hall.AlDana, formatToYYYYMMDD dayAfter, "14:00", "16:00",
      "قسم التسويق", "ورشة عمل عن الحملات الإعلانية"⟩]

/-- What reading `localStorage.getItem('hallBookings')` plus
`JSON.parse` can produce: no stored value, a read/parse failure, or a
stored booking list. -/
inductive StorageRead where
  | absent
  | corrupt
  | value (bs : List Booking)

/-- The `useState` initializer (src/App.tsx lines 55-63): use the stored
list when present; fall back to the generated seed when the key is
absent or the read throws.  No error is surfaced — the result is always
a booking list. -/
def loadBookings (r : StorageRead) (today : CivilDate) : List Booking :=
  match r with
  | StorageRead.value bs => bs
  | StorageRead.absent => generateInitialBookings today
  | StorageRead.corrupt => generateInitialBookings today

theorem strLtAux_irrefl (l : List Char) : strLtAux l l = false := by
  induction l with
  | nil => rfl
  | cons a as ih => simp [strLtAux, ih]

theorem strLt_irrefl (s : String) : strLt s s = false :=
  strLtAux_irrefl s.data

theorem getD_str_eq_get (l : List String) (i : Nat) (h : i < l.length) :
    l.getD i "" = l.get ⟨i, h⟩ := by
  simp [List.getD_eq_getElem?_getD, List.getElem?_eq_getElem h]

theorem jsIndexOf_bounds (l : List String) (x : String) :
    -1 ≤ jsIndexOf l x ∧ jsIndexOf l x < (l.length : Int) := by
  induction l with
  | nil => simp [jsIndexOf]
  | cons y l ih =>
      obtain ⟨ih1, ih2⟩ := ih
      simp only [jsIndexOf, List.length_cons]
      split_ifs <;> omega

theorem jsIndexOf_getD (l : List String) (x : String)
    (h : 0 ≤ jsIndexOf l x) : l.getD (jsIndexOf l x).toNat "" = x := by
  induction l with
  | nil => simp [jsIndexOf] at h
  | cons y l ih =>
      by_cases hy : y = x
      · simp [jsIndexOf, hy]
      · by_cases hr : jsIndexOf l x < 0
        · simp [jsIndexOf, hy, hr] at h
        · have h0 : 0 ≤ jsIndexOf l x := by omega
          have hstep : jsIndexOf (y :: l) x = jsIndexOf l x + 1 := by
            simp [jsIndexOf, hy, hr]
          rw [hstep]
          have ht : (jsIndexOf l x + 1).toNat = (jsIndexOf l x).toNat + 1 := by
            omega
          rw [ht]
          simpa using ih h0

theorem jsIndexOf_le_of_getD (l : List String) (x : String) (i : Nat)
    (h : i < l.length) (hx : l.getD i "" = x) :
    0 ≤ jsIndexOf l x ∧ jsIndexOf l x ≤ (i : Int) := by
  induction l generalizing i with
  | nil => simp at h
  | cons y l ih =>
      by_cases hy : y = x
      · simp only [jsIndexOf, if_pos hy]
        omega
      · cases i with
        | zero =>
            rw [List.getD_cons_zero] at hx
            exact absurd hx hy
        | succ j =>
            have hj : j < l.length := by simpa using h
            have hx2 : l.getD j "" = x := by simpa [List.getD_cons_succ] using hx
            obtain ⟨h1, h2⟩ := ih j hj hx2
            have hr : ¬ jsIndexOf l x < 0 := by omega
            have hstep : jsIndexOf (y :: l) x = jsIndexOf l x + 1 := by
              simp [jsIndexOf, hy, hr]
            rw [hstep]
            omega

theorem jsIndexOf_nodup_getD (l : List String) (hn : l.Nodup) (i : Nat)
    (h : i < l.length) : jsIndexOf l (l.getD i "") = (i : Int) := by
  obtain ⟨h0, hle⟩ := jsIndexOf_le_of_getD l (l.getD i "") i h rfl
  have hlt : (jsIndexOf l (l.getD i "")).toNat < l.length := by omega
  have hgd : l.getD (jsIndexOf l (l.getD i "")).toNat "" = l.getD i "" :=
    jsIndexOf_getD l (l.getD i "") h0
  have hget : l.get ⟨(jsIndexOf l (l.getD i "")).toNat, hlt⟩ = l.get ⟨i, h⟩ := by
    rw [← getD_str_eq_get l _ hlt, ← getD_str_eq_get l i h]
    exact hgd
  have hfin := (List.Nodup.get_inj_iff hn).mp hget
  have hval : (jsIndexOf l (l.getD i "")).toNat = i := congrArg Fin.val hfin
  omega

theorem range'_join (i j n : Nat) (hij : i ≤ j) (hjn : j ≤ n) :
    List.range' i (j - i) ++ List.range' j (n - j) = List.range' i (n - i) := by
  have hx := List.range'_append_1 i (j - i) (n - j)
  rw [show i + (j - i) = j by omega] at hx
  rw [hx]
  congr 1
  omega

theorem coveredIndices_length (cs : List Cell) :
    ∀ i, (coveredIndices i cs).length = spanSum cs := by
  induction cs with
  | nil => intro i; simp [coveredIndices, spanSum]
  | cons c cs ih =>
      intro i
      simp [coveredIndices, spanSum, List.length_range', ih]

theorem layoutCellsAux_cover (slots : List String) (db : List Booking) :
    ∀ fuel i, i ≤ slots.length - 1 → slots.length - 1 - i ≤ fuel →
      coveredIndices i (layoutCellsAux slots db i fuel)
        = List.range' i (slots.length - 1 - i) := by
  intro fuel
  induction fuel with
  | zero =>
      intro i hi hf
      have h0 : slots.length - 1 - i = 0 := by omega
      rw [h0]
      simp [layoutCellsAux, coveredIndices]
  | succ fuel ih =>
      intro i hi hf
      by_cases hlt : i < slots.length - 1
      · simp only [layoutCellsAux]
        rw [if_pos hlt]
        split
        · next b hfind =>
            have he := jsIndexOf_bounds slots b.endTime
            by_cases hg : (i : Int) < jsIndexOf slots b.endTime
            · rw [if_pos hg]
              have hgn : i < (jsIndexOf slots b.endTime).toNat := by omega
              simp only [coveredIndices, cellSpan]
              rw [show i + ((jsIndexOf slots b.endTime).toNat - i)
                    = (jsIndexOf slots b.endTime).toNat by omega]
              rw [ih (jsIndexOf slots b.endTime).toNat (by omega) (by omega)]
              exact range'_join i (jsIndexOf slots b.endTime).toNat
                (slots.length - 1) (by omega) (by omega)
            · rw [if_neg hg]
              simp only [coveredIndices, cellSpan]
              rw [ih (i + 1) (by omega) (by omega)]
              rw [show List.range' i 1 = List.range' i ((i + 1) - i) by congr 1; omega]
              rw [range'_join i (i + 1) (slots.length - 1) (by omega) (by omega)]
        · next hfind =>
            simp only [coveredIndices, cellSpan]
            rw [ih (i + 1) (by omega) (by omega)]
            rw [show List.range' i 1 = List.range' i ((i + 1) - i) by congr 1; omega]
            rw [range'_join i (i + 1) (slots.length - 1) (by omega) (by omega)]
      · have h0 : slots.length - 1 - i = 0 := by omega
        rw [h0]
        simp only [layoutCellsAux]
        rw [if_neg hlt]
        simp [coveredIndices]

theorem exportCellsAux_cover (slots : List String) (db : List Booking)
    (hn : slots.Nodup) :
    ∀ fuel i, i ≤ slots.length - 1 → slots.length - 1 - i ≤ fuel →
      coveredIndices i (exportCellsAux slots db i fuel)
        = List.range' i (slots.length - 1 - i) := by
  intro fuel
  induction fuel with
  | zero =>
      intro i hi hf
      have h0 : slots.length - 1 - i = 0 := by omega
      rw [h0]
      simp [exportCellsAux, coveredIndices]
  | succ fuel ih =>
      intro i hi hf
      by_cases hlt : i < slots.length - 1
      · simp only [exportCellsAux]
        rw [if_pos hlt]
        split
        · next b hfind =>
            have hbt : b.time = slots.getD i "" := by
              have hpb := List.find?_some hfind
              simpa using hpb
            have hs : jsIndexOf slots b.time = (i : Int) := by
              rw [hbt]
              exact jsIndexOf_nodup_getD slots hn i (by omega)
            have he := jsIndexOf_bounds slots b.endTime
            by_cases hg : jsIndexOf slots b.time < jsIndexOf slots b.endTime
            · rw [if_pos hg]
              rw [hs] at hg
              simp only [coveredIndices, cellSpan, hs]
              rw [show i + (jsIndexOf slots b.endTime - (i : Int)).toNat
                    = (jsIndexOf slots b.endTime).toNat by omega]
              rw [ih (jsIndexOf slots b.endTime).toNat (by omega) (by omega)]
              rw [show (jsIndexOf slots b.endTime - (i : Int)).toNat
                    = (jsIndexOf slots b.endTime).toNat - i by omega]
              exact range'_join i (jsIndexOf slots b.endTime).toNat
                (slots.length - 1) (by omega) (by omega)
            · rw [if_neg hg]
              simp only [coveredIndices, cellSpan]
              rw [ih (i + 1) (by omega) (by omega)]
              rw [show List.range' i 1 = List.range' i ((i + 1) - i) by congr 1; omega]
              rw [range'_join i (i + 1) (slots.length - 1) (by omega) (by omega)]
        · next hfind =>
            simp only [coveredIndices, cellSpan]
            rw [ih (i + 1) (by omega) (by omega)]
            rw [show List.range' i 1 = List.range' i ((i + 1) - i) by congr 1; omega]
            rw [range'_join i (i + 1) (slots.length - 1) (by omega) (by omega)]
      · have h0 : slots.length - 1 - i = 0 := by omega
        rw [h0]
        simp only [exportCellsAux]
        rw [if_neg hlt]
        simp [coveredIndices]

theorem layout_eq_export_aux (slots : List String) (db : List Booking)
    (hn : slots.Nodup)
    (hwf : ∀ b ∈ db, 0 ≤ jsIndexOf slots b.time ∧
        jsIndexOf slots b.time < jsIndexOf slots b.endTime) :
    ∀ fuel i, layoutCellsAux slots db i fuel = exportCellsAux slots db i fuel := by
  intro fuel
  induction fuel with
  | zero => intro i; rfl
  | succ fuel ih =>
      intro i
      simp only [layoutCellsAux, exportCellsAux]
      by_cases hlt : i < slots.length - 1
      · rw [if_pos hlt, if_pos hlt]
        cases hfind : db.find? (fun b => b.time = slots.getD i "") with
        | none =>
            dsimp only
            rw [ih (i + 1)]
        | some b =>
            dsimp only
            have hb : b ∈ db := List.mem_of_find?_eq_some hfind
            obtain ⟨h0, hwfb⟩ := hwf b hb
            have hbt : b.time = slots.getD i "" := by
              have hpb := List.find?_some hfind
              simpa using hpb
            have hs : jsIndexOf slots b.time = (i : Int) := by
              rw [hbt]
              exact jsIndexOf_nodup_getD slots hn i (by omega)
            rw [hs] at hwfb
            rw [hs]
            rw [if_pos hwfb, if_pos hwfb]
            rw [show (jsIndexOf slots b.endTime - (i : Int)).toNat
                  = (jsIndexOf slots b.endTime).toNat - i by omega]
            rw [show i + ((jsIndexOf slots b.endTime).toNat - i)
                  = (jsIndexOf slots b.endTime).toNat by omega]
            rw [ih (jsIndexOf slots b.endTime).toNat]
      · rw [if_neg hlt, if_neg hlt]

theorem mem_getD (l : List String) (x : String) (hx : x ∈ l) :
    ∃ k, k < l.length ∧ l.getD k "" = x := by
  obtain ⟨n, hn, he⟩ := List.mem_iff_getElem.mp hx
  refine ⟨n, hn, ?_⟩
  rw [getD_str_eq_get l n hn]
  simpa [List.get_eq_getElem] using he

theorem getD_dropLast (l : List String) (k : Nat) (hk : k < l.dropLast.length) :
    l.dropLast.getD k "" = l.getD k "" := by
  have hkl : k < l.length := by
    rw [List.length_dropLast] at hk
    omega
  rw [getD_str_eq_get l.dropLast k hk, getD_str_eq_get l k hkl]
  simp [List.get_eq_getElem, List.getElem_dropLast]

theorem layout_malformed_all_empty (slots : List String) (b : Booking)
    (hmal : jsIndexOf slots b.endTime ≤ jsIndexOf slots b.time) :
    ∀ fuel i, ∀ c ∈ layoutCellsAux slots [b] i fuel, ∃ j, c = Cell.empty j := by
  intro fuel
  induction fuel with
  | zero => intro i c hc; simp [layoutCellsAux] at hc
  | succ fuel ih =>
      intro i c hc
      by_cases hlt : i < slots.length - 1
      · simp only [layoutCellsAux] at hc
        rw [if_pos hlt] at hc
        split at hc
        · next b2 hfind =>
            have hb2 : b2 = b := by
              simpa using List.mem_of_find?_eq_some hfind
            subst hb2
            have hbt : b2.time = slots.getD i "" := by
              have hpb := List.find?_some hfind
              simpa using hpb
            obtain ⟨hp0, hple⟩ :=
              jsIndexOf_le_of_getD slots b2.time i (by omega) hbt.symm
            have hg : ¬ ((i : Int) < jsIndexOf slots b2.endTime) := by omega
            rw [if_neg hg] at hc
            rcases List.mem_cons.mp hc with h | h
            · exact ⟨i, h⟩
            · exact ih (i + 1) c h
        · next hfind =>
            rcases List.mem_cons.mp hc with h | h
            · exact ⟨i, h⟩
            · exact ih (i + 1) c h
      · simp only [layoutCellsAux] at hc
        rw [if_neg hlt] at hc
        simp at hc

theorem export_all_empty_of_no_hit (slots : List String) (b : Booking) :
    ∀ fuel i, (∀ j, i ≤ j → j < slots.length - 1 → slots.getD j "" ≠ b.time) →
      ∀ c ∈ exportCellsAux slots [b] i fuel, ∃ j, c = Cell.empty j := by
  intro fuel
  induction fuel with
  | zero => intro i hno c hc; simp [exportCellsAux] at hc
  | succ fuel ih =>
      intro i hno c hc
      by_cases hlt : i < slots.length - 1
      · simp only [exportCellsAux] at hc
        rw [if_pos hlt] at hc
        split at hc
        · next b2 hfind =>
            have hb2 : b2 = b := by
              simpa using List.mem_of_find?_eq_some hfind
            subst hb2
            have hbt : b2.time = slots.getD i "" := by
              have hpb := List.find?_some hfind
              simpa using hpb
            exact absurd hbt.symm (hno i le_rfl hlt)
        · next hfind =>
            rcases List.mem_cons.mp hc with h | h
            · exact ⟨i, h⟩
            · exact ih (i + 1) (fun j hj => hno j (by omega)) c h
      · simp only [exportCellsAux] at hc
        rw [if_neg hlt] at hc
        simp at hc

theorem export_malformed_one (slots : List String) (b : Booking)
    (hn : slots.Nodup)
    (hmal : jsIndexOf slots b.endTime ≤ jsIndexOf slots b.time)
    (h0 : 0 ≤ jsIndexOf slots b.time)
    (hpd : (jsIndexOf slots b.time).toNat < slots.length - 1) :
    ∀ fuel i, i ≤ (jsIndexOf slots b.time).toNat → slots.length - 1 - i ≤ fuel →
      (exportCellsAux slots [b] i fuel).countP isOccupiedCell = 1
      ∧ ∀ b2 s2, Cell.occupied b2 s2 ∈ exportCellsAux slots [b] i fuel →
          b2 = b ∧ s2 = 1 := by
  intro fuel
  induction fuel with
  | zero =>
      intro i hip hf
      exact absurd hf (by omega)
  | succ fuel ih =>
      intro i hip hf
      have hlt : i < slots.length - 1 := by omega
      simp only [exportCellsAux]
      rw [if_pos hlt]
      by_cases hi : i = (jsIndexOf slots b.time).toNat
      · have hbt : slots.getD i "" = b.time := by
          rw [hi]
          exact jsIndexOf_getD slots b.time h0
        have hfind : List.find? (fun b2 => b2.time = slots.getD i "") [b] = some b := by
          simp only [List.find?_cons, decide_eq_true hbt.symm]
        rw [hfind]
        dsimp only
        have hg : ¬ (jsIndexOf slots b.time < jsIndexOf slots b.endTime) := by omega
        rw [if_neg hg]
        have htail : ∀ c ∈ exportCellsAux slots [b] (i + 1) fuel,
            ∃ j, c = Cell.empty j := by
          apply export_all_empty_of_no_hit slots b fuel (i + 1)
          intro j hj hjlt heq
          have hj2 : jsIndexOf slots (slots.getD j "") = (j : Int) :=
            jsIndexOf_nodup_getD slots hn j (by omega)
          rw [heq] at hj2
          omega
        constructor
        · rw [List.countP_cons]
          have hc0 : (exportCellsAux slots [b] (i + 1) fuel).countP isOccupiedCell
              = 0 := by
            rw [List.countP_eq_zero]
            intro c hc
            obtain ⟨j, rfl⟩ := htail c hc
            simp [isOccupiedCell]
          rw [hc0]
          simp [isOccupiedCell]
        · intro b2 s2 hmem
          rcases List.mem_cons.mp hmem with h | h
          · injection h with hb hs
            exact ⟨hb, hs⟩
          · obtain ⟨j, hj⟩ := htail _ h
            exact absurd hj (by simp)
      · have hine : slots.getD i "" ≠ b.time := by
          intro heq
          have hj2 : jsIndexOf slots (slots.getD i "") = (i : Int) :=
            jsIndexOf_nodup_getD slots hn i (by omega)
          rw [heq] at hj2
          omega
        have hfind : List.find? (fun b2 => b2.time = slots.getD i "") [b] = none := by
          have hne2 : ¬ (b.time = slots.getD i "") := fun h => hine h.symm
          simp only [List.find?_cons, decide_eq_false hne2, List.find?_nil]
        rw [hfind]
        dsimp only
        obtain ⟨ihc, ihm⟩ := ih (i + 1) (by omega) (by omega)
        constructor
        · rw [List.countP_cons, ihc]
          simp [isOccupiedCell]
        · intro b2 s2 hmem
          rcases List.mem_cons.mp hmem with h | h
          · exact absurd h (by simp)
          · exact ihm b2 s2 h

/-- C2: the conflict check returns true exactly when some non-excluded
existing booking with the same hall and date overlaps the candidate in
the half-open sense (`candidate.time < other.endTime` and
`candidate.endTime > other.time`); a touching booking
(`candidate.endTime = other.time` or `candidate.time = other.endTime`)
never satisfies that overlap test. -/
theorem checkConflict_spec (bookings : List Booking) (hall : Hall)
    (date time endTime : String) (excludeId : Option String) :
    (checkConflict bookings hall date time endTime excludeId = true ↔
      ∃ b, b ∈ bookings ∧ excludeId ≠ some b.id ∧ b.hallId = hall ∧
        b.date = date ∧ strLt time b.endTime = true ∧ strLt b.time endTime = true)
    ∧ ∀ b, b ∈ bookings → (endTime = b.time ∨ time = b.endTime) →
        ¬ (strLt time b.endTime = true ∧ strLt b.time endTime = true) := by
  constructor
  · simp only [checkConflict, List.any_eq_true]
    constructor
    · rintro ⟨b, hb, hcond⟩
      refine ⟨b, hb, ?_⟩
      by_cases hex : excludeId = some b.id
      · rw [if_pos hex] at hcond
        exact absurd hcond (by simp)
      · rw [if_neg hex] at hcond
        by_cases hmatch : b.hallId = hall ∧ b.date = date
        · rw [if_pos hmatch] at hcond
          rw [Bool.and_eq_true] at hcond
          exact ⟨hex, hmatch.1, hmatch.2, hcond.1, hcond.2⟩
        · rw [if_neg hmatch] at hcond
          exact absurd hcond (by simp)
    · rintro ⟨b, hb, hex, hhall, hdate, h1, h2⟩
      refine ⟨b, hb, ?_⟩
      rw [if_neg hex, if_pos ⟨hhall, hdate⟩, h1, h2]
      rfl
  · rintro b _ (rfl | rfl) ⟨h1, h2⟩
    · exact absurd h2 (by rw [strLt_irrefl]; simp)
    · exact absurd h1 (by rw [strLt_irrefl]; simp)

/-- Witness for C2 at concrete inputs: candidate 10:00-12:00 conflicts
with booking A (09:00-11:00); candidate 11:00-12:00 touches booking A
and the overlap test rejects it. -/
theorem checkConflict_spec_witness :
    checkConflict [bookingA] Hall.AlWaha "2025-03-10" "10:00" "12:00" none = true
    ∧ ¬ (strLt "11:00" bookingA.endTime = true ∧ strLt bookingA.time "12:00" = true) := by
  constructor
  · exact (checkConflict_spec [bookingA] Hall.AlWaha "2025-03-10" "10:00" "12:00" none).1.mpr
      ⟨bookingA, by simp, by simp, rfl, rfl, by decide, by decide⟩
  · exact (checkConflict_spec [bookingA] Hall.AlWaha "2025-03-10" "11:00" "12:00" none).2
      bookingA (by simp) (Or.inr rfl)

/-- C3: when the conflict check fires, `handleSaveBooking` raises the
conflict error synchronously and performs no mutation at all — the
controller's booking set after the failed save is exactly the old set. -/
theorem saveConflictRefused (bookings : List Booking) (selectedHall : Hall)
    (bookingToEdit : Option Booking) (d : BookingData) (newId : String)
    (h : checkConflict bookings (currentHallOf bookingToEdit selectedHall)
        d.date d.time d.endTime (bookingToEdit.map Booking.id) = true) :
    handleSaveBooking bookings selectedHall bookingToEdit d newId
      = Except.error conflictMessage
    ∧ applySave bookings selectedHall bookingToEdit d newId = bookings := by
  have h1 : handleSaveBooking bookings selectedHall bookingToEdit d newId
      = Except.error conflictMessage := by
    simp only [handleSaveBooking]
    rw [if_pos h]
  exact ⟨h1, by simp [applySave, h1]⟩

/-- Witness for C3: the specification's end-to-end scenario — booking B
(10:00-12:00) against existing booking A (09:00-11:00) is refused and
the set still holds exactly A. -/
theorem saveConflictRefused_witness :
    handleSaveBooking [bookingA] Hall.AlWaha none candidateB "2025-03-09T10:00:00.000Z"
      = Except.error conflictMessage
    ∧ applySave [bookingA] Hall.AlWaha none candidateB "2025-03-09T10:00:00.000Z"
      = [bookingA] :=
  saveConflictRefused [bookingA] Hall.AlWaha none candidateB
    "2025-03-09T10:00:00.000Z" (by decide)

/-- C6: editing a booking to an unchanged time range never conflicts
with itself — with the set `[X]`, candidate equal to X's own range and
`excludeId = X.id`, the check returns false. -/
theorem selfEditNoConflict (X : Booking) :
    checkConflict [X] X.hallId X.date X.time X.endTime (some X.id) = false := by
  simp [checkConflict]

/-- C8: an edit keeps the original booking's `id` and `hallId` (the
replacement is built as `{ ...bookingToEdit, ...bookingData }` where the
payload has neither field), every booking with a different id is left
exactly unchanged at its position, and a successful save in edit mode
produces exactly this mapped list. -/
theorem editKeepsIdAndFrame (bookings : List Booking) (be : Booking)
    (d : BookingData) (selectedHall : Hall) (newId : String) :
    (applyEdit be d).id = be.id ∧ (applyEdit be d).hallId = be.hallId
    ∧ (∀ (i : Nat) (b : Booking), bookings[i]? = some b → b.id ≠ be.id →
        (updateBookings bookings be d)[i]? = some b)
    ∧ ∀ bs, handleSaveBooking bookings selectedHall (some be) d newId
        = Except.ok bs → bs = updateBookings bookings be d := by
  refine ⟨rfl, rfl, ?_, ?_⟩
  · intro i b hib hne
    simp [updateBookings, List.getElem?_map, hib, hne]
  · intro bs hsave
    simp only [handleSaveBooking] at hsave
    split at hsave
    · exact absurd hsave (by simp)
    · simp only [Except.ok.injEq] at hsave
      exact hsave.symm

/-- Witness for C8: editing booking A in the set `[A, C]` leaves C
untouched at index 1, and the updated record keeps A's id and hall. -/
theorem editKeepsIdAndFrame_witness :
    (applyEdit bookingA editPayload).id = bookingA.id
    ∧ (applyEdit bookingA editPayload).hallId = bookingA.hallId
    ∧ (updateBookings [bookingA, bookingC] bookingA editPayload)[1]? = some bookingC := by
  refine ⟨(editKeepsIdAndFrame [bookingA, bookingC] bookingA editPayload
      Hall.AlWaha "n").1, (editKeepsIdAndFrame [bookingA, bookingC] bookingA editPayload
      Hall.AlWaha "n").2.1, (editKeepsIdAndFrame [bookingA, bookingC] bookingA editPayload
      Hall.AlWaha "n").2.2.1 1 bookingC (by decide) (by decide)⟩

/-- C10: on the fixed slot grid, lexicographic string comparison agrees
with positional (chronological) order, so the conflict check's string
comparisons are genuine time-order comparisons. -/
theorem timeSlotsChronological :
    ∀ i j : Fin timeSlots.length,
      i < j ↔ strLt (timeSlots.get i) (timeSlots.get j) = true := by decide

/-- Witness for C10 at a concrete pair: position 2 (09:00) is before
position 4 (11:00) and the string comparison agrees. -/
theorem timeSlotsChronological_witness :
    strLt (timeSlots.get ⟨2, by decide⟩) (timeSlots.get ⟨4, by decide⟩) = true :=
  (timeSlotsChronological ⟨2, by decide⟩ ⟨4, by decide⟩).mp (by decide)

/-- C1 counterexample: for the malformed booking 09:00-19:00 (endTime
not in the grid) the on-screen layout emits no occupied cell at all —
the booking is dropped and its start slot is an empty clickable cell,
contradicting the claim that the layout emits exactly one occupied
span-1 cell. -/
theorem malformedDropped_counterexample :
    (layoutCells timeSlots [malformedBooking]).countP isOccupiedCell = 0
    ∧ Cell.empty 2 ∈ layoutCells timeSlots [malformedBooking] := by decide

/-- C1 (amended): for a booking whose start is a bookable column but
whose `endTime` is not found at a later grid position, the export
layout emits exactly one occupied cell and it has span 1, while the
on-screen layout drops the booking — every cell it emits is empty; in
neither case does the render fail. -/
theorem malformedDegrade (b : Booking)
    (hmem : b.time ∈ displayTimeSlots)
    (hmal : jsIndexOf timeSlots b.endTime ≤ jsIndexOf timeSlots b.time) :
    (∀ c ∈ layoutCells timeSlots [b], ∃ j, c = Cell.empty j)
    ∧ (exportCells timeSlots [b]).countP isOccupiedCell = 1
    ∧ ∀ b2 s2, Cell.occupied b2 s2 ∈ exportCells timeSlots [b] →
        b2 = b ∧ s2 = 1 := by
  obtain ⟨k, hk, hgd⟩ := mem_getD displayTimeSlots b.time hmem
  have hkL : k < timeSlots.length - 1 := by
    have hdl : displayTimeSlots.length = timeSlots.length - 1 := by decide
    omega
  have hgd2 : timeSlots.getD k "" = b.time := by
    rw [← getD_dropLast timeSlots k (by simpa [displayTimeSlots] using hk)]
    exact hgd
  obtain ⟨h0, hle⟩ := jsIndexOf_le_of_getD timeSlots b.time k (by omega) hgd2
  have hpd : (jsIndexOf timeSlots b.time).toNat < timeSlots.length - 1 := by
    omega
  have hexp := export_malformed_one timeSlots b (by decide) hmal h0 hpd
    timeSlots.length 0 (by omega) (by omega)
  exact ⟨fun c hc => layout_malformed_all_empty timeSlots b hmal
    timeSlots.length 0 c hc, hexp.1, hexp.2⟩

/-- Witness for C1 (amended) at the malformed booking 09:00-19:00: the
export shows one occupied cell and the on-screen layout only empty
cells. -/
theorem malformedDegrade_witness :
    (exportCells timeSlots [malformedBooking]).countP isOccupiedCell = 1
    ∧ ∀ c ∈ layoutCells timeSlots [malformedBooking], ∃ j, c = Cell.empty j := by
  have h := malformedDegrade malformedBooking (by decide) (by decide)
  exact ⟨h.2.1, h.1⟩

/-- C4: for any slot grid with N bookable columns (sentinel excluded)
and any valid non-overlapping one-hall one-day booking set, the layout's
spans sum to exactly N and the cells cover every slot index exactly
once, in order. -/
theorem layoutCoverage (slots : List String) (db : List Booking) (N : Nat)
    (hall : Hall) (day : String)
    (hN : slots.length = N + 1)
    (honeHallDay : ∀ b ∈ db, b.hallId = hall ∧ b.date = day)
    (hvalid : ∀ b ∈ db, 0 ≤ jsIndexOf slots b.time ∧
        jsIndexOf slots b.time < jsIndexOf slots b.endTime)
    (hdisjoint : List.Pairwise
        (fun a b2 => ¬ (strLt a.time b2.endTime = true
          ∧ strLt b2.time a.endTime = true)) db) :
    spanSum (layoutCells slots db) = N
    ∧ coveredIndices 0 (layoutCells slots db) = List.range N := by
  have hcov := layoutCellsAux_cover slots db slots.length 0 (by omega) (by omega)
  have hN0 : slots.length - 1 - 0 = N := by omega
  rw [hN0] at hcov
  constructor
  · have hlen := congrArg List.length hcov
    rw [coveredIndices_length] at hlen
    simpa [List.length_range', layoutCells] using hlen
  · show coveredIndices 0 (layoutCells slots db) = List.range N
    rw [List.range_eq_range']
    exact hcov

/-- Witness for C4: the two adjacent bookings A (09:00-11:00) and C
(11:00-12:00) on the fixed 11-column grid. -/
theorem layoutCoverage_witness :
    spanSum (layoutCells timeSlots [bookingA, bookingC]) = 11
    ∧ coveredIndices 0 (layoutCells timeSlots [bookingA, bookingC])
        = List.range 11 :=
  layoutCoverage timeSlots [bookingA, bookingC] 11 Hall.AlWaha "2025-03-10"
    (by decide) (by decide) (by decide) (by decide)

/-- C5 counterexample: for the inverted booking 10:00-08:00 the
on-screen layout and the export layout differ — the renderer drops it
to an empty cell while the export emits an occupied span-1 cell — so
the two consumers do not always produce the same layout. -/
theorem viewExportDiffer_counterexample :
    layoutCells timeSlots [invertedBooking]
      ≠ exportCells timeSlots [invertedBooking] := by decide

/-- C5 (amended): for every booking set in which each booking's `time`
is in the grid and its `endTime` sits strictly later in the grid, the
visual renderer and the spreadsheet export produce exactly the same
cell sequence (same occupied/empty cells, same spans, hence the same
merge regions). -/
theorem viewExportAgree (db : List Booking)
    (hwf : ∀ b ∈ db, 0 ≤ jsIndexOf timeSlots b.time ∧
        jsIndexOf timeSlots b.time < jsIndexOf timeSlots b.endTime) :
    layoutCells timeSlots db = exportCells timeSlots db :=
  layout_eq_export_aux timeSlots db (by decide) hwf timeSlots.length 0

/-- Witness for C5 (amended): the well-formed set `[A, C]` produces
identical render and export layouts. -/
theorem viewExportAgree_witness :
    layoutCells timeSlots [bookingA, bookingC]
      = exportCells timeSlots [bookingA, bookingC] :=
  viewExportAgree [bookingA, bookingC] (by decide)

/-- C7: the sentinel label 18:00 is the dropped last label — it heads no
column (both consumers build columns from `displayTimeSlots`), no cell
of either layout ever covers its slot index, and it may still serve as
an `endTime` (a 17:00-18:00 booking renders as one occupied span-1
cell). -/
theorem sentinelExcluded :
    "18:00" ∉ displayTimeSlots
    ∧ timeSlots = displayTimeSlots ++ ["18:00"]
    ∧ (∀ db : List Booking,
        coveredIndices 0 (layoutCells timeSlots db)
            = List.range displayTimeSlots.length
        ∧ coveredIndices 0 (exportCells timeSlots db)
            = List.range displayTimeSlots.length
        ∧ 11 ∉ coveredIndices 0 (layoutCells timeSlots db)
        ∧ 11 ∉ coveredIndices 0 (exportCells timeSlots db))
    ∧ Cell.occupied lastSlotBooking 1 ∈ layoutCells timeSlots [lastSlotBooking] := by
  refine ⟨by decide, by decide, ?_, by decide⟩
  intro db
  have h1 := layoutCellsAux_cover timeSlots db timeSlots.length 0
    (by decide) (by decide)
  have h2 := exportCellsAux_cover timeSlots db (by decide) timeSlots.length 0
    (by decide) (by decide)
  have hd : timeSlots.length - 1 - 0 = displayTimeSlots.length := by decide
  rw [hd] at h1 h2
  have hA : coveredIndices 0 (layoutCells timeSlots db)
      = List.range displayTimeSlots.length := by
    rw [List.range_eq_range']
    exact h1
  have hB : coveredIndices 0 (exportCells timeSlots db)
      = List.range displayTimeSlots.length := by
    rw [List.range_eq_range']
    exact h2
  refine ⟨hA, hB, ?_, ?_⟩
  · rw [hA]
    decide
  · rw [hB]
    decide

/-- Witness for C7 at the empty booking set: its on-screen layout covers
exactly the eleven bookable columns. -/
theorem sentinelExcluded_witness :
    coveredIndices 0 (layoutCells timeSlots [])
      = List.range displayTimeSlots.length :=
  (sentinelExcluded.2.2.1 []).1

/-- C9 counterexample: with storage absent on both loads, a load on
2025-03-10 and a load on 2025-03-11 substitute different seed sets (the
seed dates follow the current day), so the fallback seed is not the
same set on every load. -/
theorem seedVariesByDay_counterexample :
    loadBookings StorageRead.absent ⟨2025, 3, 10⟩
      ≠ loadBookings StorageRead.absent ⟨2025, 3, 11⟩ := by decide

/-- C9 (amended): when storage is absent or unreadable the load
substitutes the generated seed without surfacing an error, and the seed
is a deterministic function of the current date — both failure modes on
the same day give exactly the same set. -/
theorem seedFallback (today : CivilDate) (r : StorageRead)
    (h : r = StorageRead.absent ∨ r = StorageRead.corrupt) :
    loadBookings r today = generateInitialBookings today := by
  rcases h with rfl | rfl
  · rfl
  · rfl

/-- Witness for C9 (amended): absent storage on 2025-03-10 loads the
seed for that day. -/
theorem seedFallback_witness :
    loadBookings StorageRead.absent ⟨2025, 3, 10⟩
      = generateInitialBookings ⟨2025, 3, 10⟩ :=
  seedFallback ⟨2025, 3, 10⟩ StorageRead.absent (Or.inl rfl)

end HallApp
